import Mathlib

/-!
Shallow embedding of the metadata-fusion and scoring pipeline of the
`rust_secure_dependency_audit` crate.

Conventions of the embedding:
* Rust `f32` values are modelled as exact rationals (`ℚ`); all constants
  appearing in the scoring code are decimal literals that translate exactly.
* Rust `u8`/`u32`/`u64` are modelled as `ℕ`; the one place where the code
  casts a possibly negative `i64` to `u32` (`as u32`) is modelled by the
  two's-complement reduction `(· % 2^32)` on `ℤ` followed by `Int.toNat`.
* `chrono` timestamps are modelled at day granularity as integers
  (days since an arbitrary epoch); `Utc::now()` becomes an explicit
  `now : ℤ` parameter, and `now.signed_duration_since(t).num_days()`
  becomes `now - t`.
* Rust `&str` is modelled as `List Char`; the string utilities
  (`contains`, `split`, `trim_end_matches`, `to_lowercase`) are embedded
  as executable functions on `List Char` below.
* Network effects are modelled by passing the sequence of HTTP outcomes a
  fetcher would observe (one outcome per attempt) as an explicit argument.
-/

namespace SecAudit

/-! ### String utilities (model of the Rust `str` operations used) -/

/-- `startsWithL h p` holds when `p` is a prefix of `h` (model of `str::starts_with`). -/
def startsWithL : List Char → List Char → Bool
  | _, [] => true
  | [], _ :: _ => false
  | c :: cs, d :: ds => c == d && startsWithL cs ds

/-- Index of the first occurrence of `pat` in `h`, if any (model of `str::find`). -/
def findSubL : List Char → List Char → Option Nat
  | [], pat => if startsWithL [] pat then some 0 else none
  | h :: t, pat =>
    if startsWithL (h :: t) pat then some 0
    else (findSubL t pat).map (· + 1)

/-- Model of `str::contains` with a string pattern. -/
def containsSub (h pat : List Char) : Bool := (findSubL h pat).isSome

/-- Model of `url.split(pat).nth(1).unwrap_or("")`: the segment strictly after
the first occurrence of `pat`, cut at the second occurrence when present,
and `""` when `pat` does not occur. -/
def splitSegAfter (h pat : List Char) : List Char :=
  match findSubL h pat with
  | none => []
  | some i =>
    let rest := h.drop (i + pat.length)
    match findSubL rest pat with
    | none => rest
    | some j => rest.take j

/-- Model of `str::split(c).collect::<Vec<_>>()` for a char separator. -/
def splitOnCharL (h : List Char) (sep : Char) : List (List Char) :=
  match h with
  | [] => [[]]
  | x :: xs =>
    let rest := splitOnCharL xs sep
    if x == sep then [] :: rest
    else
      match rest with
      | [] => [[x]]
      | y :: ys => (x :: y) :: ys

/-- `endsWithL h p` holds when `p` is a suffix of `h` (model of `str::ends_with`). -/
def endsWithL (h p : List Char) : Bool := startsWithL h.reverse p.reverse

/-- Fuel-indexed worker for `trim_end_matches`; fuel `h.length` always suffices
because every step removes a nonempty suffix. -/
def trimSufGo (suf : List Char) : Nat → List Char → List Char
  | 0, h => h
  | n + 1, h =>
    if suf.length ≠ 0 ∧ endsWithL h suf = true then
      trimSufGo suf n (h.take (h.length - suf.length))
    else h

/-- Model of Rust `str::trim_end_matches`: repeatedly removes the suffix `suf`. -/
def trimSufAll (h suf : List Char) : List Char := trimSufGo suf h.length h

/-- ASCII lowercasing, the model of `str::to_lowercase` on the license strings
this crate classifies. -/
def toLowerL (h : List Char) : List Char := h.map Char.toLower

/-- Abbreviation turning a string literal into its character list. -/
def strL (s : String) : List Char := s.data

/-! ### Basic facts about the string utilities -/

theorem startsWithL_iff (h p : List Char) :
    startsWithL h p = true ↔ ∃ t, h = p ++ t := by
  induction p generalizing h with
  | nil => simp [startsWithL]
  | cons d ds ih =>
    cases h with
    | nil => simp [startsWithL]
    | cons c cs =>
      simp only [startsWithL, Bool.and_eq_true, beq_iff_eq, ih]
      constructor
      · rintro ⟨rfl, t, rfl⟩; exact ⟨t, rfl⟩
      · rintro ⟨t, ht⟩
        injection ht with h1 h2
        exact ⟨h1, t, h2⟩

theorem findSubL_some (h p : List Char) (i : Nat)
    (hf : findSubL h p = some i) : ∃ a b, h = a ++ p ++ b ∧ a.length = i := by
  induction h generalizing i with
  | nil =>
    simp only [findSubL] at hf
    split at hf
    · rename_i hs
      rw [startsWithL_iff] at hs
      obtain ⟨t, ht⟩ := hs
      rcases List.append_eq_nil.mp ht.symm with ⟨hp, htn⟩
      refine ⟨[], [], ?_, ?_⟩
      · simp [hp]
      · cases hf; rfl
    · cases hf
  | cons c cs ih =>
    simp only [findSubL] at hf
    split at hf
    · rename_i hs
      rw [startsWithL_iff] at hs
      obtain ⟨t, ht⟩ := hs
      cases hf
      exact ⟨[], t, by simpa using ht, rfl⟩
    · rcases Option.map_eq_some'.mp hf with ⟨j, hj, rfl⟩
      obtain ⟨a, b, hab, hal⟩ := ih j hj
      exact ⟨c :: a, b, by simp [hab], by simp [hal]⟩

theorem findSubL_none (h p : List Char) (hf : findSubL h p = none) :
    ∀ a b, h ≠ a ++ p ++ b := by
  induction h with
  | nil =>
    intro a b hab
    simp only [findSubL] at hf
    split at hf
    · cases hf
    · rename_i hs
      have : ∃ t, ([] : List Char) = p ++ t := by
        rcases List.append_eq_nil.mp hab.symm with ⟨h1, h2⟩
        rcases List.append_eq_nil.mp h1 with ⟨_, hp⟩
        exact ⟨[], by simp [hp]⟩
      rw [← startsWithL_iff] at this
      simp [this] at hs
  | cons c cs ih =>
    intro a b hab
    simp only [findSubL] at hf
    split at hf
    · cases hf
    · rename_i hs
      cases a with
      | nil =>
        have : ∃ t, c :: cs = p ++ t := ⟨b, by simpa using hab⟩
        rw [← startsWithL_iff] at this
        simp [this] at hs
      | cons a0 as =>
        have hmap : findSubL cs p = none := by
          cases hcs : findSubL cs p with
          | none => rfl
          | some j => simp [hcs] at hf
        injection hab with h1 h2
        exact ih hmap as b h2

/-- If some character of the pattern does not occur in the haystack, the
pattern does not occur. -/
theorem findSubL_none_of_char {h p : List Char} {c : Char}
    (hc : c ∈ p) (hh : c ∉ h) : findSubL h p = none := by
  cases hf : findSubL h p with
  | none => rfl
  | some i =>
    obtain ⟨a, b, hab, _⟩ := findSubL_some h p i hf
    exact absurd (by simp [hab, hc]) hh

/-- Splitting a list at a marker character that occurs in neither left part is
unambiguous. -/
theorem append_marker_inj {l1 r1 l2 r2 : List Char} {c : Char}
    (he : l1 ++ c :: r1 = l2 ++ c :: r2) (h1 : c ∉ l1) (h2 : c ∉ l2) :
    l1 = l2 ∧ r1 = r2 := by
  induction l1 generalizing l2 with
  | nil =>
    cases l2 with
    | nil => simpa using he
    | cons x xs =>
      injection he with hx hrest
      exact absurd (by simp [hx]) h2
  | cons y ys ih =>
    cases l2 with
    | nil =>
      injection he with hx hrest
      exact absurd (by simp [hx]) h1
    | cons x xs =>
      injection he with hx hrest
      have h1' : c ∉ ys := fun hm => h1 (by simp [hm])
      have h2' : c ∉ xs := fun hm => h2 (by simp [hm])
      obtain ⟨hl, hr⟩ := ih hrest h1' h2'
      exact ⟨by rw [hx, hl], hr⟩

theorem endsWithL_iff (h p : List Char) : endsWithL h p = true ↔ p <:+ h := by
  rw [endsWithL, startsWithL_iff]
  constructor
  · rintro ⟨t, ht⟩
    refine ⟨t.reverse, ?_⟩
    have := congrArg List.reverse ht
    simpa using this.symm
  · rintro ⟨t, rfl⟩
    exact ⟨t.reverse, by simp⟩

/-- A list of the form `a ++ m :: r` does not end with pattern `p0 :: ps`
when the marker `m` is not a pattern character and the pattern head `p0`
does not occur in `r`. -/
theorem endsWithL_false_marker {a r ps : List Char} {m p0 : Char}
    (hm : m ∉ p0 :: ps) (hp0 : p0 ∉ r) :
    endsWithL (a ++ m :: r) (p0 :: ps) = false := by
  by_contra hne
  have htrue : endsWithL (a ++ m :: r) (p0 :: ps) = true := by
    cases hv : endsWithL (a ++ m :: r) (p0 :: ps) with
    | false => exact absurd hv hne
    | true => rfl
  have hsuf : (p0 :: ps) <:+ (a ++ m :: r) := (endsWithL_iff _ _).mp htrue
  have hsuf2 : (m :: r) <:+ (a ++ m :: r) := ⟨a, rfl⟩
  rcases List.suffix_or_suffix_of_suffix hsuf hsuf2 with hc | hc
  · rcases List.suffix_cons_iff.mp hc with hc | hc
    · injection hc with hx _
      exact hm (by simp [hx])
    · exact hp0 (hc.subset (by simp))
  · exact hm (hc.subset (by simp))

/-- A list of the form `a ++ m :: r` with `r` nonempty and free of the
separator `m` does not end with `[m]`. -/
theorem endsWithL_false_sep {a r : List Char} {m : Char}
    (hr : r ≠ []) (hm : m ∉ r) :
    endsWithL (a ++ m :: r) [m] = false := by
  by_contra hne
  have htrue : endsWithL (a ++ m :: r) [m] = true := by
    cases hv : endsWithL (a ++ m :: r) [m] with
    | false => exact absurd hv hne
    | true => rfl
  have hsuf : [m] <:+ (a ++ m :: r) := (endsWithL_iff _ _).mp htrue
  have hsuf2 : r <:+ (a ++ m :: r) := ⟨a ++ [m], by simp⟩
  rcases List.suffix_or_suffix_of_suffix hsuf hsuf2 with hc | hc
  · exact hm (hc.subset (by simp))
  · rcases List.suffix_cons_iff.mp hc with hc | hc
    · exact hm (hc ▸ by simp)
    · exact hr (List.suffix_nil.mp hc)

theorem trimSufGo_of_not_ends {suf h : List Char}
    (hne : endsWithL h suf = false) : ∀ n, trimSufGo suf n h = h := by
  intro n
  cases n with
  | zero => rfl
  | succ k => simp [trimSufGo, hne]

theorem trimSufAll_of_not_ends {suf h : List Char}
    (hne : endsWithL h suf = false) : trimSufAll h suf = h :=
  trimSufGo_of_not_ends hne _

theorem splitOnCharL_of_not_mem {l : List Char} {c : Char} (h : c ∉ l) :
    splitOnCharL l c = [l] := by
  induction l with
  | nil => rfl
  | cons x xs ih =>
    have hx : ¬(x == c) = true := by
      simp only [beq_iff_eq]
      intro hxc; exact h (by simp [hxc])
    have hxs : c ∉ xs := fun hm => h (by simp [hm])
    simp [splitOnCharL, ih hxs, hx]

theorem splitOnCharL_append {a b : List Char} {c : Char} (h : c ∉ a) :
    splitOnCharL (a ++ c :: b) c = a :: splitOnCharL b c := by
  induction a with
  | nil =>
    simp only [List.nil_append, splitOnCharL]
    have hrest := splitOnCharL b c
    simp
  | cons x xs ih =>
    have hx : ¬(x == c) = true := by
      simp only [beq_iff_eq]
      intro hxc; exact h (by simp [hxc])
    have hxs : c ∉ xs := fun hm => h (by simp [hm])
    simp [splitOnCharL, ih hxs, hx]

/-! ### Numeric helpers: models of the `f32` operations used by the scorer -/

/-- Rust `f32::round`: round half away from zero. -/
def rustRound (x : ℚ) : ℚ :=
  if 0 ≤ x then (⌊x + 1/2⌋ : ℤ) else (-⌊-x + 1/2⌋ : ℤ)

/-- Rust `f32::clamp`. -/
def clampQ (x lo hi : ℚ) : ℚ := max lo (min x hi)

/-- Rust `expr as u8` on an `f32`: truncate toward zero, saturating to `[0,255]`. -/
def f32AsU8 (x : ℚ) : ℕ :=
  if x ≤ 0 then 0 else if 255 ≤ x then 255 else (⌊x⌋).toNat

/-- Rust `expr as u32` on an `i64`: two's-complement truncation to 32 bits. -/
def i64AsU32 (n : ℤ) : ℕ := (n % (2 ^ 32)).toNat

/-! ### Data model (`config.rs`, `types.rs`, metadata structs)

`ScoringWeights` and `ComponentScores` carry the five fields used by
`scoring.rs` (`recency`, `maintenance`, `community`, `stability`,
`security`); `CrateMetadata` carries the `is_yanked` flag read by the
scorer.  Timestamps are integer day counts. -/

structure ScoringWeights where
  recency : ℚ
  maintenance : ℚ
  community : ℚ
  stability : ℚ
  security : ℚ
  deriving Repr, DecidableEq

structure StalenessThresholds where
  stale_days : ℕ
  risky_days : ℕ
  min_maintainers : ℕ
  deriving Repr, DecidableEq

structure LicensePolicy where
  allowed_licenses : List (List Char)
  forbidden_licenses : List (List Char)
  warn_on_copyleft : Bool
  warn_on_unknown : Bool
  deriving Repr, DecidableEq

structure FootprintThresholds where
  max_transitive_deps : Option ℕ
  max_footprint_risk : Option ℚ
  deriving Repr, DecidableEq

structure NetworkConfig where
  timeout_secs : ℕ
  max_retries : ℕ
  request_delay_ms : ℕ
  deriving Repr, DecidableEq

structure AuditConfig where
  scoring_weights : ScoringWeights
  staleness_thresholds : StalenessThresholds
  license_policy : LicensePolicy
  footprint_thresholds : FootprintThresholds
  network : NetworkConfig
  ignored_dependencies : List String
  deriving Repr, DecidableEq

/-- Defaults from `config.rs` (`ScoringWeights::default` has no security
weight in the source; the scorer reads `weights.security`, modelled here
as the extra field, zero by default). -/
def ScoringWeights.default : ScoringWeights :=
  { recency := 4/10, maintenance := 3/10, community := 2/10
    stability := 1/10, security := 0 }

def StalenessThresholds.default : StalenessThresholds :=
  { stale_days := 365, risky_days := 730, min_maintainers := 1 }

def LicensePolicy.default : LicensePolicy :=
  { allowed_licenses := [], forbidden_licenses := []
    warn_on_copyleft := true, warn_on_unknown := true }

def FootprintThresholds.default : FootprintThresholds :=
  { max_transitive_deps := some 100, max_footprint_risk := some (8/10) }

def NetworkConfig.default : NetworkConfig :=
  { timeout_secs := 30, max_retries := 3, request_delay_ms := 100 }

def AuditConfig.default : AuditConfig :=
  { scoring_weights := ScoringWeights.default
    staleness_thresholds := StalenessThresholds.default
    license_policy := LicensePolicy.default
    footprint_thresholds := FootprintThresholds.default
    network := NetworkConfig.default
    ignored_dependencies := [] }

structure CrateMetadata where
  name : String
  version : String
  description : Option String
  license : Option (List Char)
  repository : Option (List Char)
  homepage : Option String
  downloads : ℕ
  recent_downloads : Option ℕ
  created_at : ℤ
  updated_at : ℤ
  version_count : ℕ
  authors : List String
  is_yanked : Bool
  deriving Repr, DecidableEq

structure GitHubMetadata where
  name : String
  full_name : String
  description : Option String
  stars : ℕ
  forks : ℕ
  open_issues : ℕ
  is_archived : Bool
  created_at : ℤ
  updated_at : ℤ
  pushed_at : ℤ
  contributors_count : Option ℕ
  has_security_policy : Option Bool
  deriving Repr, DecidableEq

structure GitLabMetadata where
  name : String
  path_with_namespace : String
  description : Option String
  stars : ℕ
  forks : ℕ
  open_issues : ℕ
  is_archived : Bool
  created_at : ℤ
  last_activity_at : ℤ
  deriving Repr, DecidableEq

inductive HealthStatus where
  | healthy
  | warning
  | stale
  | risky
  deriving Repr, DecidableEq

inductive LicenseRisk where
  | permissive
  | copyleft
  | proprietary
  | unknown
  deriving Repr, DecidableEq

inductive DependencySource where
  | cratesRegistry
  | git (url : String)
  | path (p : String)
  | unknown
  deriving Repr, DecidableEq

structure ComponentScores where
  recency : ℚ
  maintenance : ℚ
  community : ℚ
  stability : ℚ
  security : ℚ
  deriving Repr, DecidableEq

structure RepositoryMetrics where
  open_issues : Option ℕ
  contributor_count : Option ℕ
  days_since_last_commit : Option ℕ
  stars : Option ℕ
  is_archived : Option Bool
  has_security_policy : Option Bool
  deriving Repr, DecidableEq

structure DependencyMetrics where
  days_since_last_update : Option ℕ
  version_count : Option ℕ
  maintainer_count : Option ℕ
  repository : Option RepositoryMetrics
  openssf_score : Option ℚ
  scores : ComponentScores
  deriving Repr, DecidableEq

structure DependencyHealth where
  name : String
  version : String
  is_direct : Bool
  health_score : ℕ
  status : HealthStatus
  license : Option (List Char)
  license_risk : LicenseRisk
  footprint_risk : Option ℚ
  source : DependencySource
  metrics : Option DependencyMetrics
  warnings : List String
  is_yanked : Bool
  deriving Repr, DecidableEq

structure AuditSummary where
  total_dependencies : ℕ
  healthy : ℕ
  warning : ℕ
  stale : ℕ
  risky : ℕ
  average_health_score : ℚ
  license_issues : ℕ
  high_footprint_count : ℕ
  deriving Repr, DecidableEq

def AuditSummary.default : AuditSummary :=
  { total_dependencies := 0, healthy := 0, warning := 0, stale := 0
    risky := 0, average_health_score := 0, license_issues := 0
    high_footprint_count := 0 }

structure AuditReport where
  project_name : String
  project_path : String
  timestamp : ℤ
  dependencies : List DependencyHealth
  summary : AuditSummary
  deriving Repr, DecidableEq

/-! ### `scoring.rs` -/

/-- `calculate_recency_score` (`scoring.rs`).  `now` is the value of
`Utc::now()` in days; the `num_days() as u32` cast is `i64AsU32`. -/
def calculate_recency_score (crate_meta : Option CrateMetadata)
    (github_meta : Option GitHubMetadata) (gitlab_meta : Option GitLabMetadata)
    (config : AuditConfig) (now : ℤ) : ℚ :=
  let last_update? : Option ℤ :=
    match github_meta with
    | some gh => some gh.pushed_at
    | none =>
      match gitlab_meta with
      | some gl => some gl.last_activity_at
      | none =>
        match crate_meta with
        | some cr => some cr.updated_at
        | none => none
  match last_update? with
  | none => 0
  | some last_update =>
    let days_old : ℕ := i64AsU32 (now - last_update)
    let stale_days := config.staleness_thresholds.stale_days
    let risky_days := config.staleness_thresholds.risky_days
    if days_old ≤ 30 then 100
    else if days_old ≤ 90 then 90
    else if days_old ≤ 180 then 80
    else if days_old ≤ stale_days then 60
    else if days_old ≤ risky_days then 30
    else 10

/-- `calculate_maintenance_score` (`scoring.rs`).  `days_since_push` keeps
its `i64` type in the source, so no cast is applied here. -/
def calculate_maintenance_score (github_meta : Option GitHubMetadata)
    (gitlab_meta : Option GitLabMetadata) (now : ℤ) : ℚ :=
  match github_meta with
  | some gh =>
    if gh.is_archived then 0
    else
      let s1 : ℚ :=
        if gh.open_issues < 10 then 50 + 25
        else if gh.open_issues < 50 then 50 + 10
        else if gh.open_issues > 200 then 50 - 10
        else 50
      let days_since_push : ℤ := now - gh.pushed_at
      let s2 : ℚ :=
        if days_since_push ≤ 30 then s1 + 25
        else if days_since_push ≤ 90 then s1 + 15
        else if days_since_push > 365 then s1 - 20
        else s1
      clampQ s2 0 100
  | none =>
    match gitlab_meta with
    | some gl =>
      if gl.is_archived then 0
      else
        let s1 : ℚ :=
          if gl.open_issues < 10 then 50 + 25
          else if gl.open_issues < 50 then 50 + 10
          else 50
        let days_since_activity : ℤ := now - gl.last_activity_at
        let s2 : ℚ :=
          if days_since_activity ≤ 30 then s1 + 25
          else if days_since_activity ≤ 90 then s1 + 15
          else if days_since_activity > 365 then s1 - 20
          else s1
        clampQ s2 0 100
    | none => 50

/-- `calculate_community_score` (`scoring.rs`). -/
def calculate_community_score (crate_meta : Option CrateMetadata)
    (github_meta : Option GitHubMetadata)
    (gitlab_meta : Option GitLabMetadata) : ℚ :=
  let s0 : ℚ := 0
  let s1 : ℚ :=
    match crate_meta with
    | some cm =>
      let author_count := cm.authors.length
      s0 + (if author_count = 0 then 0
            else if author_count = 1 then 30
            else if author_count ≤ 5 then 50
            else if author_count ≤ 10 then 70
            else 80)
    | none => s0
  let s2 : ℚ :=
    match github_meta with
    | some gh =>
      let sStars := s1 + (if gh.stars ≤ 10 then 0
            else if gh.stars ≤ 50 then 10
            else if gh.stars ≤ 200 then 20
            else if gh.stars ≤ 1000 then 30
            else 40)
      match gh.contributors_count with
      | some contributors =>
        sStars + (if contributors ≤ 1 then 0
              else if contributors ≤ 5 then 10
              else if contributors ≤ 20 then 20
              else 30)
      | none => sStars
    | none =>
      match gitlab_meta with
      | some gl =>
        s1 + (if gl.stars ≤ 10 then 0
              else if gl.stars ≤ 50 then 10
              else if gl.stars ≤ 200 then 20
              else if gl.stars ≤ 1000 then 30
              else 40)
      | none => s1
  clampQ s2 0 100

/-- `calculate_stability_score` (`scoring.rs`). -/
def calculate_stability_score (crate_meta : Option CrateMetadata) : ℚ :=
  match crate_meta with
  | some meta =>
    let score : ℚ :=
      if meta.version_count ≤ 1 then 20
      else if meta.version_count ≤ 5 then 40
      else if meta.version_count ≤ 10 then 60
      else if meta.version_count ≤ 30 then 80
      else 100
    let download_bonus : ℚ :=
      if meta.downloads > 1000000 then 10
      else if meta.downloads > 100000 then 5
      else 0
    clampQ (score + download_bonus) 0 100
  | none => 50

/-- `calculate_security_score` (`scoring.rs`).  Note that the OpenSSF branch
returns `ossf * 10` without clamping. -/
def calculate_security_score (crate_meta : Option CrateMetadata)
    (github_meta : Option GitHubMetadata) (openssf_score : Option ℚ) : ℚ :=
  match openssf_score with
  | some ossf => ossf * 10
  | none =>
    let s1 : ℚ :=
      match github_meta with
      | some gh =>
        match gh.has_security_policy with
        | some true => 50 + 20
        | some false => 50 - 10
        | none => 50
      | none => 50
    match crate_meta with
    | some cm => if cm.is_yanked then 0 else clampQ s1 0 100
    | none => clampQ s1 0 100

/-- `build_metrics` (`scoring.rs`). -/
def build_metrics (crate_meta : Option CrateMetadata)
    (github_meta : Option GitHubMetadata) (gitlab_meta : Option GitLabMetadata)
    (openssf_score : Option ℚ) (scores : ComponentScores) (now : ℤ) :
    Option DependencyMetrics :=
  let days_since_last_update : Option ℕ :=
    match github_meta with
    | some gh => some (i64AsU32 (now - gh.pushed_at))
    | none =>
      match gitlab_meta with
      | some gl => some (i64AsU32 (now - gl.last_activity_at))
      | none =>
        match crate_meta with
        | some cr => some (i64AsU32 (now - cr.updated_at))
        | none => none
  let repository : Option RepositoryMetrics :=
    match github_meta with
    | some gh =>
      some { open_issues := some gh.open_issues
             contributor_count := gh.contributors_count
             days_since_last_commit := some (i64AsU32 (now - gh.pushed_at))
             stars := some gh.stars
             is_archived := some gh.is_archived
             has_security_policy := gh.has_security_policy }
    | none =>
      match gitlab_meta with
      | some gl =>
        some { open_issues := some gl.open_issues
               contributor_count := none
               days_since_last_commit := some (i64AsU32 (now - gl.last_activity_at))
               stars := some gl.stars
               is_archived := some gl.is_archived
               has_security_policy := none }
      | none => none
  some { days_since_last_update := days_since_last_update
         version_count := crate_meta.map (·.version_count)
         maintainer_count := crate_meta.map (·.authors.length)
         repository := repository
         openssf_score := openssf_score
         scores := scores }

/-- `calculate_health_score` (`scoring.rs`): weighted sum, `round`, yank
override, clamp, `as u8`. -/
def calculate_health_score (crate_meta : Option CrateMetadata)
    (github_meta : Option GitHubMetadata) (gitlab_meta : Option GitLabMetadata)
    (openssf_score : Option ℚ) (config : AuditConfig) (now : ℤ) :
    ℕ × ComponentScores × Option DependencyMetrics :=
  let weights := config.scoring_weights
  let recency_score := calculate_recency_score crate_meta github_meta gitlab_meta config now
  let maintenance_score := calculate_maintenance_score github_meta gitlab_meta now
  let community_score := calculate_community_score crate_meta github_meta gitlab_meta
  let stability_score := calculate_stability_score crate_meta
  let security_score := calculate_security_score crate_meta github_meta openssf_score
  let scores : ComponentScores :=
    { recency := recency_score, maintenance := maintenance_score
      community := community_score, stability := stability_score
      security := security_score }
  let overall0 : ℚ := rustRound (recency_score * weights.recency
      + maintenance_score * weights.maintenance
      + community_score * weights.community
      + stability_score * weights.stability
      + security_score * weights.security)
  let overall1 : ℚ :=
    match crate_meta with
    | some meta => if meta.is_yanked then min (overall0 * (1/10)) 10 else overall0
    | none => overall0
  let overall : ℕ := f32AsU8 (clampQ overall1 0 100)
  let metrics := build_metrics crate_meta github_meta gitlab_meta openssf_score scores now
  (overall, scores, metrics)

/-- `determine_status` (`scoring.rs`). -/
def determine_status (score : ℕ) (_config : AuditConfig) : HealthStatus :=
  if score ≥ 80 then .healthy
  else if score ≥ 60 then .warning
  else if score ≥ 40 then .stale
  else .risky

/-! ### `license.rs` -/

/-- Fuel-indexed worker for `str::split` with a string pattern; fuel
`h.length + 1` always suffices for a nonempty pattern. -/
def splitSubGo (pat : List Char) : Nat → List Char → List (List Char)
  | 0, h => [h]
  | n + 1, h =>
    match findSubL h pat with
    | none => [h]
    | some i => h.take i :: splitSubGo pat n (h.drop (i + pat.length))

/-- Model of `str::split` with a (nonempty) string pattern, collecting all
segments. -/
def splitOnSubAll (h pat : List Char) : List (List Char) :=
  if pat.isEmpty then [h] else splitSubGo pat (h.length + 1) h

/-- Model of `str::trim`. -/
def trimSpaces (l : List Char) : List Char :=
  ((l.dropWhile Char.isWhitespace).reverse.dropWhile Char.isWhitespace).reverse

/-- `is_permissive` (`license.rs`); input is already lowercased. -/
def is_permissive (license : List Char) : Bool :=
  [strL "mit", strL "apache", strL "bsd", strL "isc", strL "0bsd",
   strL "unlicense", strL "cc0", strL "wtfpl", strL "zlib", strL "boost"
  ].any (fun p => containsSub license p)

/-- `is_copyleft` (`license.rs`). -/
def is_copyleft (license : List Char) : Bool :=
  [strL "gpl", strL "lgpl", strL "agpl", strL "mpl", strL "eupl",
   strL "osl", strL "ms-pl", strL "cddl", strL "epl", strL "cc-by-sa"
  ].any (fun p => containsSub license p)

/-- `is_proprietary` (`license.rs`). -/
def is_proprietary (license : List Char) : Bool :=
  [strL "proprietary", strL "commercial", strL "private",
   strL "all rights reserved"
  ].any (fun p => containsSub license p)

/-- `categorize_license` (`license.rs`). -/
def categorize_license (license : List Char) : LicenseRisk :=
  let license_lower := toLowerL license
  if is_permissive license_lower then .permissive
  else if is_copyleft license_lower then .copyleft
  else if is_proprietary license_lower then .proprietary
  else .unknown

/-- `license_matches` (`license.rs`): case-insensitive substring match with
OR/AND splitting. -/
def license_matches (license pattern : List Char) : Bool :=
  let license_lower := toLowerL license
  let pattern_lower := toLowerL pattern
  if containsSub license_lower (strL " or ") ∨ containsSub license_lower (strL " and ") then
    if containsSub license_lower (strL " or ") then
      (splitOnSubAll license_lower (strL " or ")).any
        (fun part => containsSub (trimSpaces part) pattern_lower)
    else
      (splitOnSubAll license_lower (strL " and ")).any
        (fun part => containsSub (trimSpaces part) pattern_lower)
  else
    containsSub license_lower pattern_lower

/-- `analyze_license` (`license.rs`). -/
def analyze_license (license : Option (List Char)) (policy : LicensePolicy) :
    LicenseRisk × List String :=
  match license with
  | none =>
    (.unknown, if policy.warn_on_unknown then ["No license information found"] else [])
  | some license_str =>
    let forbiddenHit := policy.forbidden_licenses.any
      (fun forbidden => license_matches license_str forbidden)
    if policy.forbidden_licenses ≠ [] ∧ forbiddenHit then
      (.proprietary,
       ["Uses forbidden license: " ++ String.mk license_str])
    else
      let allowWarn : List String :=
        if policy.allowed_licenses ≠ [] ∧
            ¬ policy.allowed_licenses.any (fun allowed => license_matches license_str allowed) then
          ["License " ++ String.mk license_str ++ " not in allowed list"]
        else []
      let risk := categorize_license license_str
      let riskWarn : List String :=
        match risk with
        | .copyleft =>
          if policy.warn_on_copyleft then
            ["Copyleft license detected: " ++ String.mk license_str] else []
        | .unknown =>
          if policy.warn_on_unknown then
            ["Unknown license: " ++ String.mk license_str] else []
        | .proprietary => ["Proprietary license detected: " ++ String.mk license_str]
        | .permissive => []
      (risk, allowWarn ++ riskWarn)

/-! ### `footprint.rs`

The relevant slice of the `cargo_metadata` data model: package identifiers
are strings, a package carries its feature map (modelled as an association
list) and its declared dependencies (only the dependency kind is read), and
the resolve graph gives each node's resolved dependency edges. -/

inductive DepKind where
  | normal
  | development
  | build
  deriving Repr, DecidableEq

structure CargoDep where
  name : String
  kind : DepKind
  deriving Repr, DecidableEq

structure CargoPackage where
  id : String
  features : List (String × List String)
  dependencies : List CargoDep
  deriving Repr, DecidableEq

structure ResolveNode where
  id : String
  deps : List String
  deriving Repr, DecidableEq

structure ResolveGraph where
  nodes : List ResolveNode
  deriving Repr, DecidableEq

structure CargoMeta where
  packages : List CargoPackage
  resolve : Option ResolveGraph
  deriving Repr, DecidableEq

/-- Fuel-indexed worker for the visited-set walk in `count_transitive_deps`:
the state is the `to_visit` stack (head = top) and the visited set (a
duplicate-free list).  The fuel passed by `count_transitive_deps` bounds the
total number of stack pops, so it never runs out. -/
def walkGo (nodes : List ResolveNode) : Nat → List String → List String → List String
  | 0, _, visited => visited
  | _ + 1, [], visited => visited
  | fuel + 1, current :: rest, visited =>
    if current ∈ visited then walkGo nodes fuel rest visited
    else
      let visited' := current :: visited
      match nodes.find? (fun n => n.id = current) with
      | some node => walkGo nodes fuel (node.deps.reverse ++ rest) visited'
      | none => walkGo nodes fuel rest visited'

/-- `count_transitive_deps` (`footprint.rs`): cycle-safe graph walk; the
package itself is excluded from the count (`saturating_sub 1`). -/
def count_transitive_deps (package_id : String) (meta : CargoMeta) : ℕ :=
  match meta.resolve with
  | none => 0
  | some resolve =>
    let fuel := 2 + resolve.nodes.foldl (fun a n => a + 1 + n.deps.length) 0
    (walkGo resolve.nodes fuel [package_id] []).length - 1

/-- `calculate_dep_count_score` (`footprint.rs`). -/
def calculate_dep_count_score (count : ℕ) : ℚ :=
  if count ≤ 5 then 1/10
  else if count ≤ 10 then 2/10
  else if count ≤ 20 then 4/10
  else if count ≤ 50 then 6/10
  else if count ≤ 100 then 8/10
  else 1

/-- `calculate_feature_score` (`footprint.rs`). -/
def calculate_feature_score (features : List (String × List String)) : ℚ :=
  let feature_count := features.length
  if feature_count ≤ 3 then 1/10
  else if feature_count ≤ 8 then 3/10
  else if feature_count ≤ 15 then 5/10
  else if feature_count ≤ 30 then 7/10
  else 1

/-- `calculate_build_dep_score` (`footprint.rs`). -/
def calculate_build_dep_score (package : CargoPackage) : ℚ :=
  let build_deps_count :=
    (package.dependencies.filter (fun d => d.kind = DepKind.build)).length
  if build_deps_count = 0 then 0
  else if build_deps_count ≤ 2 then 3/10
  else if build_deps_count ≤ 5 then 6/10
  else 1

/-- `estimate_footprint` (`footprint.rs`). -/
def estimate_footprint (package_id : String) (meta : CargoMeta)
    (thresholds : FootprintThresholds) : ℚ × List String :=
  let transitive_count := count_transitive_deps package_id meta
  let package := meta.packages.find? (fun p => p.id = package_id)
  let dep_score := calculate_dep_count_score transitive_count
  let fp0 : ℚ := 0 + dep_score * (4/10)
  let footprint_score : ℚ :=
    match package with
    | some pkg =>
      fp0 + calculate_feature_score pkg.features * (3/10)
        + calculate_build_dep_score pkg * (3/10)
    | none => fp0
  let w1 : List String :=
    match thresholds.max_transitive_deps with
    | some max_transitive =>
      if transitive_count > max_transitive then
        ["High number of transitive dependencies: " ++ toString transitive_count
          ++ " (threshold: " ++ toString max_transitive ++ ")"]
      else []
    | none => []
  let w2 : List String :=
    match thresholds.max_footprint_risk with
    | some max_footprint =>
      if footprint_score > max_footprint then
        ["High footprint risk (threshold exceeded)"]
      else []
    | none => []
  (footprint_score, w1 ++ w2)

/-! ### `types.rs`: `compute_summary` -/

/-- Mutable accumulators of the `compute_summary` loop. -/
structure SummaryAcc where
  healthy : ℕ
  warning : ℕ
  stale : ℕ
  risky : ℕ
  total_score : ℕ
  license_issues : ℕ
  high_footprint : ℕ
  deriving Repr, DecidableEq

/-- One iteration of the `compute_summary` loop body (`types.rs`). -/
def summaryStep (acc : SummaryAcc) (dep : DependencyHealth) : SummaryAcc :=
  let acc1 :=
    match dep.status with
    | .healthy => { acc with healthy := acc.healthy + 1 }
    | .warning => { acc with warning := acc.warning + 1 }
    | .stale => { acc with stale := acc.stale + 1 }
    | .risky => { acc with risky := acc.risky + 1 }
  let acc2 := { acc1 with total_score := acc1.total_score + dep.health_score }
  let acc3 :=
    if dep.license_risk = .copyleft ∨ dep.license_risk = .proprietary ∨
        dep.license_risk = .unknown then
      { acc2 with license_issues := acc2.license_issues + 1 }
    else acc2
  match dep.footprint_risk with
  | some footprint =>
    if footprint > 7/10 then
      { acc3 with high_footprint := acc3.high_footprint + 1 }
    else acc3
  | none => acc3

/-- `AuditReport::compute_summary` (`types.rs`): one pass over the
dependency list accumulating status counts, the score total, license
issues and high-footprint counts, then the average. -/
def compute_summary (deps : List DependencyHealth) : AuditSummary :=
  let total := deps.length
  let acc := deps.foldl summaryStep ⟨0, 0, 0, 0, 0, 0, 0⟩
  { total_dependencies := total
    healthy := acc.healthy, warning := acc.warning
    stale := acc.stale, risky := acc.risky
    average_health_score :=
      if total > 0 then (acc.total_score : ℚ) / (total : ℚ) else 0
    license_issues := acc.license_issues
    high_footprint_count := acc.high_footprint }

/-! ### `metadata/github.rs`: `parse_github_url` -/

/-- `parse_github_url` (`metadata/github.rs`): trim a `.git` suffix and
trailing slashes, split after `github.com:` (SSH form) or `github.com/`
(HTTPS/git form), then split the remainder on `/` and take the first two
segments. -/
def parse_github_url (url : List Char) : Option (List Char × List Char) :=
  let u1 := trimSufAll url (strL ".git")
  let u2 := trimSufAll u1 (strL "/")
  let parts? : Option (List (List Char)) :=
    if containsSub u2 (strL "github.com:") then
      some (splitOnCharL (splitSegAfter u2 (strL "github.com:")) '/')
    else if containsSub u2 (strL "github.com/") then
      some (splitOnCharL (splitSegAfter u2 (strL "github.com/")) '/')
    else none
  match parts? with
  | none => none
  | some (a :: b :: _) => some (a, b)
  | some _ => none

/-! ### `error.rs` -/

/-- The `AuditError` variants reachable in the embedded slice.  `reqwest`
stands for the `ReqwestError(#[from] reqwest::Error)` variant produced by
the `?` operator on HTTP/JSON failures. -/
inductive AuditErr where
  | parseErr (msg : String)
  | network (msg : String)
  | api (service : String) (message : String)
  | reqwest (msg : String)
  | rateLimit (service : String) (retry_after : Option ℕ)
  | depNotFound (name : String)
  deriving Repr, DecidableEq

/-- The `Display` rendering of `AuditError` (the `#[error(...)]` formats of
`error.rs`), used when a fetch failure is turned into a warning string. -/
def errMsg : AuditErr → String
  | .parseErr m => "Failed to parse project metadata: " ++ m
  | .network m => "Network error: " ++ m
  | .api s m => "API error from " ++ s ++ ": " ++ m
  | .reqwest m => "HTTP request error: " ++ m
  | .rateLimit s ra =>
    "Rate limit exceeded for " ++ s ++ ". Retry after: " ++
      (match ra with
       | none => "None"
       | some d => "Some(" ++ toString d ++ "s)")
  | .depNotFound n => "Dependency not found: " ++ n

/-! ### `metadata/*.rs`: the retry loops

The network is modelled by the sequence of outcomes the fetcher observes:
`env i` is what the `i`-th `send()` call produces — either a transport
failure or a response with a status code, an optional parsed
`x-ratelimit-reset` header value (epoch seconds), and a body whose JSON
decoding may itself fail.  Backoff delays change timing only, not results,
so the doubling delay is threaded for the one place its value is
observable: the `retry_after` hint in the crates.io rate-limit error. -/

inductive HttpOutcome (α : Type) where
  | transport (e : String)
  | response (status : ℕ) (rate_limit_reset : Option ℕ) (body : Except String α)

/-- `reqwest::StatusCode::is_success`. -/
def isSuccessStatus (s : ℕ) : Bool := 200 ≤ s ∧ s ≤ 299

/-- Worker for `fetch_with_retry` (`metadata/github.rs`): `attempt` is the
index of the current `send()`, `fuelLeft` is `max_retries - attempts`
(the loop errors out on a transport failure once `attempts >= max_retries`).
`now` is the current epoch-seconds value used to turn the reset header into
a `retry-after` duration via `saturating_sub`. -/
def githubFetchResp {α : Type} (now : ℕ) (status : ℕ) (reset : Option ℕ)
    (body : Except String α) : Except AuditErr α :=
  if status = 403 then
    .error (.rateLimit "GitHub" (reset.map (fun timestamp => timestamp - now)))
  else if status = 404 then
    .error (.api "GitHub" "Repository not found")
  else if ¬ isSuccessStatus status then
    .error (.api "GitHub" ("HTTP " ++ toString status))
  else
    match body with
    | .ok d => .ok d
    | .error e => .error (.reqwest e)

def githubFetchGo {α : Type} (env : ℕ → HttpOutcome α) (now : ℕ) :
    ℕ → ℕ → Except AuditErr α
  | attempt, 0 =>
    match env attempt with
    | .response status reset body => githubFetchResp now status reset body
    | .transport e => .error (.network ("GitHub request failed: " ++ e))
  | attempt, n + 1 =>
    match env attempt with
    | .response status reset body => githubFetchResp now status reset body
    | .transport _ => githubFetchGo env now (attempt + 1) n

/-- `fetch_with_retry` (`metadata/github.rs`). -/
def fetch_with_retry {α : Type} (env : ℕ → HttpOutcome α)
    (config : NetworkConfig) (now : ℕ) : Except AuditErr α :=
  githubFetchGo env now 0 config.max_retries

/-- A crates.io response as returned by `retry_request`: status plus body
(the caller inspects the status itself). -/
structure HttpResponse (α : Type) where
  status : ℕ
  body : Except String α

/-- Worker for `retry_request` (`metadata/crates_io.rs`): HTTP 429 and
transport failures are retried with the shared attempts counter and a
doubling delay; any other response is returned to the caller as-is. -/
def cratesRetryGo {α : Type} (env : ℕ → HttpOutcome α) :
    ℕ → ℕ → ℕ → Except AuditErr (HttpResponse α)
  | attempt, 0, delay =>
    match env attempt with
    | .response status _reset body =>
      if status = 429 then .error (.rateLimit "crates.io" (some delay))
      else .ok { status := status, body := body }
    | .transport e => .error (.network ("Request failed: " ++ e))
  | attempt, n + 1, delay =>
    match env attempt with
    | .response status _reset body =>
      if status = 429 then cratesRetryGo env (attempt + 1) n (delay * 2)
      else .ok { status := status, body := body }
    | .transport _ => cratesRetryGo env (attempt + 1) n (delay * 2)

/-- `retry_request` (`metadata/crates_io.rs`). -/
def retry_request {α : Type} (env : ℕ → HttpOutcome α)
    (max_retries : ℕ) (base_delay : ℕ) : Except AuditErr (HttpResponse α) :=
  cratesRetryGo env 0 max_retries base_delay

/-- The single-`send` body of `fetch_gitlab_metadata`
(`metadata/gitlab.rs`): no retry loop exists for GitLab; a transport
failure propagates through `?` and a non-success status is a terminal
`ApiError` (404 specialized to "Project not found"). -/
def gitlabFetchOnce {α : Type} (outcome : HttpOutcome α) : Except AuditErr α :=
  match outcome with
  | .transport e => .error (.reqwest e)
  | .response status _ body =>
    if ¬ isSuccessStatus status then
      if status = 404 then .error (.api "GitLab" "Project not found")
      else .error (.api "GitLab" ("HTTP " ++ toString status))
    else
      match body with
      | .ok d => .ok d
      | .error e => .error (.reqwest e)

/-! ### `audit.rs` -/

/-- `ParsedDependency` (`parser.rs`). -/
structure ParsedDependency where
  name : String
  version : String
  is_direct : Bool
  source : DependencySource
  package_id : String
  deriving Repr, DecidableEq

/-- The three per-dependency fetchers as seen from `process_dependency`:
`audit.rs` only distinguishes `Ok(meta)` from `Err(e)`, so the fetchers are
abstracted to their result. -/
structure FetchEnv where
  crate_fetch : String → String → Except AuditErr CrateMetadata
  github_fetch : List Char → Except AuditErr GitHubMetadata
  gitlab_fetch : List Char → Except AuditErr GitLabMetadata

/-- `process_dependency` (`audit.rs`).  The OpenSSF scorecard block is
commented out in the source, so `openssf_score` is `None`.  The return type
mirrors the source's `Result<DependencyHealth>`. -/
def process_dependency (dep : ParsedDependency) (config : AuditConfig)
    (cargo_metadata : CargoMeta) (env : FetchEnv) (now : ℤ) :
    Except AuditErr DependencyHealth :=
  let fetched : Option CrateMetadata × List String :=
    match dep.source with
    | .cratesRegistry =>
      match env.crate_fetch dep.name dep.version with
      | .ok meta => (some meta, [])
      | .error e => (none, ["Could not fetch crates.io metadata: " ++ errMsg e])
    | _ => (none, [])
  let crate_meta := fetched.1
  let warnings0 := fetched.2
  let repo_url : Option (List Char) := crate_meta.bind (·.repository)
  let gh : Option GitHubMetadata × List String :=
    match repo_url with
    | some url =>
      if containsSub url (strL "github.com") then
        match env.github_fetch url with
        | .ok meta => (some meta, [])
        | .error e => (none, ["Could not fetch GitHub metadata: " ++ errMsg e])
      else (none, [])
    | none => (none, [])
  let gl : Option GitLabMetadata × List String :=
    match repo_url with
    | some url =>
      if containsSub url (strL "gitlab.com") then
        match env.gitlab_fetch url with
        | .ok meta => (some meta, [])
        | .error e => (none, ["Could not fetch GitLab metadata: " ++ errMsg e])
      else (none, [])
    | none => (none, [])
  let openssf_score : Option ℚ := none
  let scored := calculate_health_score crate_meta gh.1 gl.1 openssf_score config now
  let health_score := scored.1
  let metrics := scored.2.2
  let status := determine_status health_score config
  let license_str : Option (List Char) := crate_meta.bind (·.license)
  let analyzed := analyze_license license_str config.license_policy
  let footprinted :=
    estimate_footprint dep.package_id cargo_metadata config.footprint_thresholds
  .ok { name := dep.name
        version := dep.version
        is_direct := dep.is_direct
        health_score := health_score
        status := status
        license := license_str
        license_risk := analyzed.1
        footprint_risk := some footprinted.1
        source := dep.source
        metrics := metrics
        warnings := warnings0 ++ gh.2 ++ gl.2 ++ analyzed.2 ++ footprinted.2
        is_yanked :=
          match crate_meta with
          | some m => m.is_yanked
          | none => false }

/-- The match of the result-collection loop of `audit_project`
(`audit.rs`): an `Ok` task result is appended to the report, an `Err` is
logged and skipped. -/
def collectStep (acc : List DependencyHealth)
    (r : Except AuditErr DependencyHealth) : List DependencyHealth :=
  match r with
  | .ok dep_health => acc ++ [dep_health]
  | .error _ => acc

/-- `audit_project` (`audit.rs`), after the external graph-resolution step:
the parsed dependency list and cargo metadata are inputs.  Tasks are
spawned per non-ignored dependency and awaited in spawn order, so the
collection loop is the sequential fold below; a task result of `Err` is
logged and skipped (task panics have no counterpart in the embedding). -/
def audit_project (project_name project_path : String)
    (dependencies : List ParsedDependency) (cargo_metadata : CargoMeta)
    (config : AuditConfig) (env : FetchEnv) (now : ℤ) : AuditReport :=
  let deps := dependencies.filter
    (fun dep => ¬ config.ignored_dependencies.contains dep.name)
  let results := deps.map
    (fun dep => process_dependency dep config cargo_metadata env now)
  let collected := results.foldl collectStep []
  { project_name := project_name
    project_path := project_path
    timestamp := now
    dependencies := collected
    summary := compute_summary collected }

/-! ### Spec-ordered scoring variant and concrete example inputs -/

/-- Modelled from the spec: §4.4 states the yank override is "applied after
the weighted sum and before clamping/rounding".  This variant implements
that stated pipeline order — weighted sum, then the yank override on the
un-rounded sum, then rounding, clamping and the integer cast — to be
compared against `calculate_health_score`, which rounds before the
override and never rounds again after it. -/
def health_score_spec_order (crate_meta : Option CrateMetadata)
    (github_meta : Option GitHubMetadata) (gitlab_meta : Option GitLabMetadata)
    (openssf_score : Option ℚ) (config : AuditConfig) (now : ℤ) : ℕ :=
  let weights := config.scoring_weights
  let weighted : ℚ :=
    calculate_recency_score crate_meta github_meta gitlab_meta config now * weights.recency
      + calculate_maintenance_score github_meta gitlab_meta now * weights.maintenance
      + calculate_community_score crate_meta github_meta gitlab_meta * weights.community
      + calculate_stability_score crate_meta * weights.stability
      + calculate_security_score crate_meta github_meta openssf_score * weights.security
  let overridden : ℚ :=
    match crate_meta with
    | some meta => if meta.is_yanked then min (weighted * (1/10)) 10 else weighted
    | none => weighted
  f32AsU8 (clampQ (rustRound overridden) 0 100)

/-- A concrete yanked crates.io entry: one author, seven versions, published
ten days before `now = 0`.  Its component scores under the default config
are recency 100, maintenance 50, community 30, stability 60, security 0,
giving the weighted sum 67. -/
def cmYankedEx : CrateMetadata :=
  { name := "ex", version := "1.0.0", description := none, license := none
    repository := none, homepage := none, downloads := 0
    recent_downloads := none, created_at := -100, updated_at := -10
    version_count := 7, authors := ["a"], is_yanked := true }

/-- A GitHub repository whose last push lies two days in the future of
`now = 0`. -/
def ghFutureEx : GitHubMetadata :=
  { name := "r", full_name := "o/r", description := none, stars := 0
    forks := 0, open_issues := 0, is_archived := false, created_at := 0
    updated_at := 0, pushed_at := 2, contributors_count := none
    has_security_policy := none }

/-- The default config with `stale_days` raised to `u32::MAX`. -/
def cfgHugeStaleEx : AuditConfig :=
  { AuditConfig.default with
    staleness_thresholds :=
      { stale_days := 4294967295, risky_days := 730, min_maintainers := 1 } }

/-- Cargo metadata with a single package `p` having no resolved
dependencies, no declared features and no build dependencies. -/
def minimalMetaEx : CargoMeta :=
  { packages := [{ id := "p", features := [], dependencies := [] }]
    resolve := some { nodes := [{ id := "p", deps := [] }] } }

/-! ## Theorems -/

/-! ### Shared bound lemmas -/

theorem f32AsU8_le {x : ℚ} {n : ℕ} (h : x ≤ (n : ℚ)) : f32AsU8 x ≤ n := by
  unfold f32AsU8
  split
  · exact Nat.zero_le n
  · split
    · rename_i h1 h2
      have : (255 : ℚ) ≤ (n : ℚ) := le_trans h2 h
      exact_mod_cast this
    · rename_i h1 h2
      have hf : ⌊x⌋ ≤ (n : ℤ) := by
        have := Int.floor_le_floor h
        simpa using this
      omega

theorem clampQ_le_hi {x : ℚ} : clampQ x 0 100 ≤ 100 := by
  unfold clampQ
  apply max_le
  · norm_num
  · exact min_le_right _ _

/-! ### C1: overall score range -/

/-- C1: for every combination of present/absent crates.io, GitHub and
GitLab metadata and every optional OpenSSF score (including all inputs
absent), if the scoring weights sum to 1.0 then the overall health score
returned by `calculate_health_score` lies in [0,100]. -/
theorem health_score_in_unit_range (crate_meta : Option CrateMetadata)
    (github_meta : Option GitHubMetadata) (gitlab_meta : Option GitLabMetadata)
    (openssf_score : Option ℚ) (cfg : AuditConfig) (now : ℤ)
    (hw : cfg.scoring_weights.recency + cfg.scoring_weights.maintenance
        + cfg.scoring_weights.community + cfg.scoring_weights.stability
        + cfg.scoring_weights.security = 1) :
    0 ≤ (calculate_health_score crate_meta github_meta gitlab_meta
        openssf_score cfg now).1 ∧
    (calculate_health_score crate_meta github_meta gitlab_meta
        openssf_score cfg now).1 ≤ 100 := by
  refine ⟨Nat.zero_le _, ?_⟩
  show f32AsU8 (clampQ _ 0 100) ≤ 100
  exact f32AsU8_le (by exact_mod_cast clampQ_le_hi)

/-- Witness for C1 at the default config (whose five weights sum to 1)
with every metadata source absent. -/
theorem health_score_in_unit_range_witness :
    (AuditConfig.default.scoring_weights.recency
      + AuditConfig.default.scoring_weights.maintenance
      + AuditConfig.default.scoring_weights.community
      + AuditConfig.default.scoring_weights.stability
      + AuditConfig.default.scoring_weights.security = 1) ∧
    (calculate_health_score none none none none AuditConfig.default 0).1 ≤ 100 := by
  have hw : AuditConfig.default.scoring_weights.recency
      + AuditConfig.default.scoring_weights.maintenance
      + AuditConfig.default.scoring_weights.community
      + AuditConfig.default.scoring_weights.stability
      + AuditConfig.default.scoring_weights.security = 1 := by
    norm_num [AuditConfig.default, ScoringWeights.default]
  exact ⟨hw, (health_score_in_unit_range none none none none AuditConfig.default 0 hw).2⟩

/-! ### C2: yank override -/

/-- C2 counterexample: the claim states the yank override is applied
"before clamping and rounding", but `calculate_health_score` rounds the
weighted sum first and never rounds after the override.  At `cmYankedEx`
under the default config (weighted sum 67) the code truncates 6.7 to 6
while the spec-stated order would round 6.7 to 7. -/
theorem yank_override_order_counterexample :
    (calculate_health_score (some cmYankedEx) none none none
        AuditConfig.default 0).1 = 6 ∧
    health_score_spec_order (some cmYankedEx) none none none
        AuditConfig.default 0 = 7 ∧
    (calculate_health_score (some cmYankedEx) none none none
        AuditConfig.default 0).1 ≠
      health_score_spec_order (some cmYankedEx) none none none
        AuditConfig.default 0 := by
  have h1 : (calculate_health_score (some cmYankedEx) none none none
      AuditConfig.default 0).1 = 6 := by
    norm_num [calculate_health_score, calculate_recency_score,
      calculate_maintenance_score, calculate_community_score,
      calculate_stability_score, calculate_security_score, cmYankedEx,
      AuditConfig.default, ScoringWeights.default, StalenessThresholds.default,
      i64AsU32, clampQ, rustRound, f32AsU8, Int.toNat_ofNat]
    omega
  have h2 : health_score_spec_order (some cmYankedEx) none none none
      AuditConfig.default 0 = 7 := by
    norm_num [health_score_spec_order, calculate_recency_score,
      calculate_maintenance_score, calculate_community_score,
      calculate_stability_score, calculate_security_score, cmYankedEx,
      AuditConfig.default, ScoringWeights.default, StalenessThresholds.default,
      i64AsU32, clampQ, rustRound, f32AsU8, Int.toNat_ofNat]
    omega
  exact ⟨h1, h2, by rw [h1, h2]; omega⟩

/-- C2 amended: a yanked registry entry always yields an overall score of
at most 10; the override scales the already *rounded* weighted sum to 10%
(hard ceiling 10) and is applied before clamping and the final integer
truncation (not before rounding). -/
theorem yanked_score_le_ten (m : CrateMetadata) (github_meta : Option GitHubMetadata)
    (gitlab_meta : Option GitLabMetadata) (openssf_score : Option ℚ)
    (cfg : AuditConfig) (now : ℤ) (hy : m.is_yanked = true) :
    (calculate_health_score (some m) github_meta gitlab_meta openssf_score
        cfg now).1 ≤ 10 ∧
    (calculate_health_score (some m) github_meta gitlab_meta openssf_score
        cfg now).1 =
      f32AsU8 (clampQ (min (rustRound
        (calculate_recency_score (some m) github_meta gitlab_meta cfg now
            * cfg.scoring_weights.recency
          + calculate_maintenance_score github_meta gitlab_meta now
            * cfg.scoring_weights.maintenance
          + calculate_community_score (some m) github_meta gitlab_meta
            * cfg.scoring_weights.community
          + calculate_stability_score (some m) * cfg.scoring_weights.stability
          + calculate_security_score (some m) github_meta openssf_score
            * cfg.scoring_weights.security) * (1/10)) 10) 0 100) := by
  have key : (calculate_health_score (some m) github_meta gitlab_meta
      openssf_score cfg now).1 =
      f32AsU8 (clampQ (min (rustRound
        (calculate_recency_score (some m) github_meta gitlab_meta cfg now
            * cfg.scoring_weights.recency
          + calculate_maintenance_score github_meta gitlab_meta now
            * cfg.scoring_weights.maintenance
          + calculate_community_score (some m) github_meta gitlab_meta
            * cfg.scoring_weights.community
          + calculate_stability_score (some m) * cfg.scoring_weights.stability
          + calculate_security_score (some m) github_meta openssf_score
            * cfg.scoring_weights.security) * (1/10)) 10) 0 100) := by
    simp only [calculate_health_score, hy, if_true]
  refine ⟨?_, key⟩
  rw [key]
  apply f32AsU8_le (n := 10)
  unfold clampQ
  apply max_le
  · norm_num
  · calc min (min (rustRound _ * (1/10)) 10) 100
        ≤ min (rustRound _ * (1/10)) 10 := min_le_left _ _
      _ ≤ 10 := min_le_right _ _
      _ ≤ (10 : ℚ) := le_refl _

/-- Witness for C2 amended at the concrete yanked entry `cmYankedEx`. -/
theorem yanked_score_le_ten_witness :
    cmYankedEx.is_yanked = true ∧
    (calculate_health_score (some cmYankedEx) none none none
        AuditConfig.default 0).1 ≤ 10 := by
  exact ⟨rfl, (yanked_score_le_ten cmYankedEx none none none
    AuditConfig.default 0 rfl).1⟩

/-! ### C5: component defaults -/

/-- C5 counterexample: with every metadata source absent the recency and
community sub-scores are 0, not the claimed neutral 50 (the component
vector is (0, 50, 0, 50, 50)). -/
theorem component_defaults_counterexample :
    (calculate_health_score none none none none AuditConfig.default 0).2.1 =
      ⟨0, 50, 0, 50, 50⟩ ∧
    (calculate_health_score none none none none AuditConfig.default 0).2.1.recency
      ≠ 50 ∧
    (calculate_health_score none none none none AuditConfig.default 0).2.1.community
      ≠ 50 := by
  have h : (calculate_health_score none none none none AuditConfig.default 0).2.1 =
      ⟨0, 50, 0, 50, 50⟩ := by
    simp only [calculate_health_score, calculate_recency_score,
      calculate_maintenance_score, calculate_community_score,
      calculate_stability_score, calculate_security_score]
    norm_num [clampQ]
  refine ⟨h, ?_, ?_⟩ <;> rw [h] <;> norm_num

/-- C5 amended: `maintenance`, `stability` and `security` default to the
neutral 50 when their source metadata is absent, but `recency` and
`community` default to 0; with every source absent the component vector
produced by `calculate_health_score` is (0, 50, 0, 50, 50) for every
config. -/
theorem component_scores_all_absent (cfg : AuditConfig) (now : ℤ) :
    (calculate_health_score none none none none cfg now).2.1 =
      ⟨0, 50, 0, 50, 50⟩ := by
  simp only [calculate_health_score, calculate_recency_score,
    calculate_maintenance_score, calculate_community_score,
    calculate_stability_score, calculate_security_score]
  norm_num [clampQ]

/-! ### C4: license classification -/

/-- C4: `analyze_license` is total — every license string (or its absence)
maps to exactly one of the four tiers; "MIT OR Apache-2.0" is Permissive,
"GPL-3.0" and "AGPL-3.0" are Copyleft, "CustomLicense" is Unknown, and an
absent license is Unknown with a warning emitted iff
`policy.warn_on_unknown`. -/
theorem analyze_license_total_and_instances :
    (∀ (license : Option (List Char)) (policy : LicensePolicy),
      (analyze_license license policy).1 = .permissive ∨
      (analyze_license license policy).1 = .copyleft ∨
      (analyze_license license policy).1 = .proprietary ∨
      (analyze_license license policy).1 = .unknown) ∧
    (analyze_license (some (strL "MIT OR Apache-2.0")) LicensePolicy.default).1
      = .permissive ∧
    (analyze_license (some (strL "GPL-3.0")) LicensePolicy.default).1
      = .copyleft ∧
    (analyze_license (some (strL "AGPL-3.0")) LicensePolicy.default).1
      = .copyleft ∧
    (analyze_license (some (strL "CustomLicense")) LicensePolicy.default).1
      = .unknown ∧
    (∀ policy : LicensePolicy, analyze_license none policy =
      (.unknown,
        if policy.warn_on_unknown then ["No license information found"] else [])) := by
  refine ⟨?_, by decide, by decide, by decide, by decide, ?_⟩
  · intro license policy
    cases h : (analyze_license license policy).1 <;> simp
  · intro policy
    rfl

/-! ### C6: footprint feature buckets -/

/-- C6 counterexample: the declared-feature-count term does not use the
transitive-count buckets — six features score 0.3, not the claimed 0.2 —
and the minimal package (0 transitive deps, 0 features, 0 build deps)
scores 0.04 + 0.1·0.3 = 0.07, not approximately 0.04. -/
theorem footprint_feature_bucket_counterexample :
    calculate_feature_score (List.replicate 6 ("f", [])) = 3/10 ∧
    calculate_feature_score (List.replicate 6 ("f", [])) ≠ 2/10 ∧
    (estimate_footprint "p" minimalMetaEx FootprintThresholds.default).1 = 7/100 ∧
    (estimate_footprint "p" minimalMetaEx FootprintThresholds.default).1 ≠ 4/100 := by
  refine ⟨?_, ?_, ?_, ?_⟩ <;>
    norm_num [calculate_feature_score, estimate_footprint, count_transitive_deps,
      walkGo, calculate_dep_count_score, calculate_build_dep_score,
      minimalMetaEx, FootprintThresholds.default]

/-- C6 amended: the feature-count term uses its own buckets
(0–3→0.1, 4–8→0.3, 9–15→0.5, 16–30→0.7, >30→1.0) at weight 0.3, and a
package with 0 transitive dependencies, 0 features and 0 build
dependencies scores 0.1·0.4 + 0.1·0.3 + 0 = 0.07 for every choice of
thresholds. -/
theorem footprint_minimal_and_feature_buckets :
    (∀ th : FootprintThresholds,
      (estimate_footprint "p" minimalMetaEx th).1 = 7/100) ∧
    calculate_feature_score [] = 1/10 ∧
    calculate_feature_score (List.replicate 3 ("f", [])) = 1/10 ∧
    calculate_feature_score (List.replicate 4 ("f", [])) = 3/10 ∧
    calculate_feature_score (List.replicate 8 ("f", [])) = 3/10 ∧
    calculate_feature_score (List.replicate 9 ("f", [])) = 5/10 ∧
    calculate_feature_score (List.replicate 15 ("f", [])) = 5/10 ∧
    calculate_feature_score (List.replicate 16 ("f", [])) = 7/10 ∧
    calculate_feature_score (List.replicate 30 ("f", [])) = 7/10 ∧
    calculate_feature_score (List.replicate 31 ("f", [])) = 1 := by
  refine ⟨?_, ?_, ?_, ?_, ?_, ?_, ?_, ?_, ?_, ?_⟩
  · intro th
    norm_num [estimate_footprint, count_transitive_deps, walkGo,
      calculate_dep_count_score, calculate_feature_score,
      calculate_build_dep_score, minimalMetaEx]
  all_goals norm_num [calculate_feature_score]

/-! ### C10: future timestamps in the recency score -/

/-- C10 counterexample: with the last push two days in the future and
`stale_days = u32::MAX`, the wrapped day count 2^32 − 2 still satisfies
`days_old ≤ stale_days`, so the recency score is 60, not the claimed 10 —
the claim fails for this choice of staleness thresholds. -/
theorem recency_future_counterexample :
    calculate_recency_score none (some ghFutureEx) none cfgHugeStaleEx 0 ≠ 10 ∧
    calculate_recency_score none (some ghFutureEx) none cfgHugeStaleEx 0 = 60 := by
  have h : calculate_recency_score none (some ghFutureEx) none cfgHugeStaleEx 0 = 60 := by
    have hdays : i64AsU32 (0 - ghFutureEx.pushed_at) = 4294967294 := by
      unfold i64AsU32 ghFutureEx
      norm_num
      omega
    simp only [calculate_recency_score]
    rw [hdays]
    rw [if_neg (by omega), if_neg (by omega), if_neg (by omega)]
    rw [if_pos]
    simp [cfgHugeStaleEx]
  exact ⟨by rw [h]; norm_num, h⟩

/-- C10 amended: when the preferred GitHub push timestamp lies `k ≥ 2` days
in the future, the `num_days() as u32` cast wraps the negative day count to
`2^32 − k`, and the recency sub-score is 10 (the very-stale bucket) rather
than 100 for every choice of staleness thresholds below the wrapped value
(in particular for all realistic thresholds). -/
theorem recency_future_wraps_to_ten (crate_meta : Option CrateMetadata)
    (gitlab_meta : Option GitLabMetadata) (cfg : AuditConfig)
    (gh : GitHubMetadata) (now : ℤ) (k : ℕ) (hk2 : 2 ≤ k)
    (hkmax : k ≤ 2 ^ 32 - 181) (hpush : gh.pushed_at = now + k)
    (hstale : cfg.staleness_thresholds.stale_days < 2 ^ 32 - k)
    (hrisky : cfg.staleness_thresholds.risky_days < 2 ^ 32 - k) :
    calculate_recency_score crate_meta (some gh) gitlab_meta cfg now = 10 := by
  have hdays : i64AsU32 (now - gh.pushed_at) = 2 ^ 32 - k := by
    unfold i64AsU32
    rw [hpush]
    have harg : now - (now + (k : ℤ)) = -(k : ℤ) := by ring
    rw [harg]
    omega
  simp only [calculate_recency_score]
  rw [hdays]
  rw [if_neg (by omega), if_neg (by omega), if_neg (by omega),
    if_neg (by omega), if_neg (by omega)]

/-- Witness for C10 amended: a push two days in the future under the
default thresholds yields recency 10. -/
theorem recency_future_wraps_to_ten_witness :
    ghFutureEx.pushed_at = 0 + (2 : ℕ) ∧
    AuditConfig.default.staleness_thresholds.stale_days < 2 ^ 32 - 2 ∧
    AuditConfig.default.staleness_thresholds.risky_days < 2 ^ 32 - 2 ∧
    calculate_recency_score none (some ghFutureEx) none AuditConfig.default 0 = 10 := by
  refine ⟨by norm_num [ghFutureEx], ?_, ?_, ?_⟩
  · norm_num [AuditConfig.default, StalenessThresholds.default]
  · norm_num [AuditConfig.default, StalenessThresholds.default]
  · exact recency_future_wraps_to_ten none none AuditConfig.default ghFutureEx 0 2
      (by norm_num) (by norm_num) (by norm_num [ghFutureEx])
      (by norm_num [AuditConfig.default, StalenessThresholds.default])
      (by norm_num [AuditConfig.default, StalenessThresholds.default])

/-! ### C8: summary consistency -/

theorem summaryStep_counts_and_score (acc : SummaryAcc) (d : DependencyHealth) :
    (summaryStep acc d).healthy + (summaryStep acc d).warning
        + (summaryStep acc d).stale + (summaryStep acc d).risky
      = acc.healthy + acc.warning + acc.stale + acc.risky + 1 ∧
    (summaryStep acc d).total_score = acc.total_score + d.health_score := by
  unfold summaryStep
  cases hs : d.status <;>
    cases hfp : d.footprint_risk <;>
      by_cases hl : (d.license_risk = LicenseRisk.copyleft ∨
          d.license_risk = LicenseRisk.proprietary ∨
          d.license_risk = LicenseRisk.unknown) <;>
        simp [hl] <;> (try split) <;> (try simp) <;> omega

theorem foldl_summaryStep (deps : List DependencyHealth) (acc : SummaryAcc) :
    (deps.foldl summaryStep acc).healthy + (deps.foldl summaryStep acc).warning
        + (deps.foldl summaryStep acc).stale + (deps.foldl summaryStep acc).risky
      = acc.healthy + acc.warning + acc.stale + acc.risky + deps.length ∧
    (deps.foldl summaryStep acc).total_score
      = acc.total_score + (deps.map (·.health_score)).sum := by
  induction deps generalizing acc with
  | nil => simp
  | cons d ds ih =>
    simp only [List.foldl_cons, List.length_cons, List.map_cons, List.sum_cons]
    obtain ⟨hc, hsc⟩ := summaryStep_counts_and_score acc d
    obtain ⟨ihc, ihs⟩ := ih (summaryStep acc d)
    constructor
    · omega
    · omega

/-- C8: for every list of `DependencyHealth` entries `compute_summary`
satisfies `healthy + warning + stale + risky = total_dependencies = number
of entries`, and `average_health_score` is the arithmetic mean of the
entries' health scores (0 when the list is empty). -/
theorem summary_consistency (deps : List DependencyHealth) :
    (compute_summary deps).healthy + (compute_summary deps).warning
        + (compute_summary deps).stale + (compute_summary deps).risky
      = (compute_summary deps).total_dependencies ∧
    (compute_summary deps).total_dependencies = deps.length ∧
    (compute_summary deps).average_health_score =
      (if deps.length = 0 then 0
       else ((deps.map (·.health_score)).sum : ℚ) / (deps.length : ℚ)) := by
  obtain ⟨hc, hs⟩ := foldl_summaryStep deps ⟨0, 0, 0, 0, 0, 0, 0⟩
  refine ⟨?_, rfl, ?_⟩
  · simpa [compute_summary] using hc
  · simp only [compute_summary]
    rcases Nat.eq_zero_or_pos deps.length with hz | hp
    · simp [hz]
    · rw [if_pos hp, if_neg (by omega)]
      rw [hs]
      norm_num [Function.comp_def]

/-! ### C3: per-dependency fault isolation -/

theorem collect_map_process (cfg : AuditConfig) (meta : CargoMeta)
    (env : FetchEnv) (now : ℤ) :
    ∀ (l : List ParsedDependency) (acc : List DependencyHealth),
      ((l.map (fun d => process_dependency d cfg meta env now)).foldl
          collectStep acc).length = acc.length + l.length ∧
      ((l.map (fun d => process_dependency d cfg meta env now)).foldl
          collectStep acc).map (·.name)
        = acc.map (·.name) ++ l.map (·.name) := by
  intro l
  induction l with
  | nil => simp
  | cons d ds ih =>
    intro acc
    obtain ⟨h, hh, hname⟩ :
        ∃ h, process_dependency d cfg meta env now = .ok h ∧ h.name = d.name :=
      ⟨_, rfl, rfl⟩
    simp only [List.map_cons, List.foldl_cons, hh, collectStep]
    obtain ⟨ihl, ihm⟩ := ih (acc ++ [h])
    refine ⟨?_, ?_⟩
    · rw [ihl]
      simp
      omega
    · rw [ihm]
      simp [hname]

/-- C3: a failure of any metadata fetch (registry, GitHub, GitLab) never
makes `process_dependency` return an error — the failure becomes a warning
string on that dependency's `DependencyHealth` — and the report produced by
`audit_project` contains exactly one entry per non-ignored dependency
(same count and same names, in order). -/
theorem per_dependency_fault_isolation :
    (∀ (dep : ParsedDependency) (cfg : AuditConfig) (meta : CargoMeta)
        (env : FetchEnv) (now : ℤ),
      ∃ h, process_dependency dep cfg meta env now = .ok h) ∧
    (∀ (dep : ParsedDependency) (cfg : AuditConfig) (meta : CargoMeta)
        (env : FetchEnv) (now : ℤ) (e : AuditErr),
      dep.source = .cratesRegistry →
      env.crate_fetch dep.name dep.version = .error e →
      ∃ h, process_dependency dep cfg meta env now = .ok h ∧
        ("Could not fetch crates.io metadata: " ++ errMsg e) ∈ h.warnings) ∧
    (∀ (dep : ParsedDependency) (cfg : AuditConfig) (meta : CargoMeta)
        (env : FetchEnv) (now : ℤ) (cm : CrateMetadata) (url : List Char)
        (e : AuditErr),
      dep.source = .cratesRegistry →
      env.crate_fetch dep.name dep.version = .ok cm →
      cm.repository = some url →
      containsSub url (strL "github.com") = true →
      env.github_fetch url = .error e →
      ∃ h, process_dependency dep cfg meta env now = .ok h ∧
        ("Could not fetch GitHub metadata: " ++ errMsg e) ∈ h.warnings) ∧
    (∀ (dep : ParsedDependency) (cfg : AuditConfig) (meta : CargoMeta)
        (env : FetchEnv) (now : ℤ) (cm : CrateMetadata) (url : List Char)
        (e : AuditErr),
      dep.source = .cratesRegistry →
      env.crate_fetch dep.name dep.version = .ok cm →
      cm.repository = some url →
      containsSub url (strL "gitlab.com") = true →
      env.gitlab_fetch url = .error e →
      ∃ h, process_dependency dep cfg meta env now = .ok h ∧
        ("Could not fetch GitLab metadata: " ++ errMsg e) ∈ h.warnings) ∧
    (∀ (name path : String) (deps : List ParsedDependency) (meta : CargoMeta)
        (cfg : AuditConfig) (env : FetchEnv) (now : ℤ),
      (audit_project name path deps meta cfg env now).dependencies.length =
        (deps.filter
          (fun dep => ¬ cfg.ignored_dependencies.contains dep.name)).length ∧
      (audit_project name path deps meta cfg env now).dependencies.map (·.name) =
        (deps.filter
          (fun dep => ¬ cfg.ignored_dependencies.contains dep.name)).map (·.name)) := by
  refine ⟨?_, ?_, ?_, ?_, ?_⟩
  · intro dep cfg meta env now
    exact ⟨_, rfl⟩
  · intro dep cfg meta env now e hsrc herr
    refine ⟨_, rfl, ?_⟩
    simp only [process_dependency, hsrc, herr]
    simp
  · intro dep cfg meta env now cm url e hsrc hok hrepo hgh herr
    refine ⟨_, rfl, ?_⟩
    simp only [process_dependency, hsrc, hok, Option.bind, hrepo, hgh, if_true, herr]
    simp
  · intro dep cfg meta env now cm url e hsrc hok hrepo hgl herr
    refine ⟨_, rfl, ?_⟩
    simp only [process_dependency, hsrc, hok, Option.bind, hrepo, hgl, if_true, herr]
    simp
  · intro name path deps meta cfg env now
    obtain ⟨hl, hm⟩ := collect_map_process cfg meta env now
      (deps.filter (fun dep => ¬ cfg.ignored_dependencies.contains dep.name)) []
    constructor
    · simpa [audit_project] using hl
    · simpa [audit_project] using hm

/-- Witness for C3 at a concrete dependency whose registry fetch fails: the
result is `Ok` and carries the corresponding warning. -/
theorem per_dependency_fault_isolation_witness :
    ({ name := "dep", version := "1", is_direct := true,
       source := .cratesRegistry, package_id := "dep" } : ParsedDependency).source
        = .cratesRegistry ∧
    (∃ h, process_dependency
        { name := "dep", version := "1", is_direct := true,
          source := .cratesRegistry, package_id := "dep" }
        AuditConfig.default minimalMetaEx
        { crate_fetch := fun _ _ => .error (.network "unreachable")
          github_fetch := fun _ => .error (.network "unreachable")
          gitlab_fetch := fun _ => .error (.network "unreachable") } 0 = .ok h ∧
      ("Could not fetch crates.io metadata: " ++ errMsg (.network "unreachable"))
        ∈ h.warnings) := by
  refine ⟨rfl, ?_⟩
  exact (per_dependency_fault_isolation.2.1)
    { name := "dep", version := "1", is_direct := true,
      source := .cratesRegistry, package_id := "dep" }
    AuditConfig.default minimalMetaEx
    { crate_fetch := fun _ _ => .error (.network "unreachable")
      github_fetch := fun _ => .error (.network "unreachable")
      gitlab_fetch := fun _ => .error (.network "unreachable") } 0
    (.network "unreachable") rfl rfl

/-! ### C7: rate-limit handling per fetcher -/

theorem cratesRetryGo_all429 {α : Type} (env : ℕ → HttpOutcome α)
    (h429 : ∀ i, ∃ r b, env i = .response 429 r b) :
    ∀ (fuel attempt delay : ℕ),
      cratesRetryGo env attempt fuel delay =
        .error (.rateLimit "crates.io" (some (delay * 2 ^ fuel))) := by
  intro fuel
  induction fuel with
  | zero =>
    intro attempt delay
    obtain ⟨r, b, hrb⟩ := h429 attempt
    unfold cratesRetryGo
    rw [hrb]
    simp
  | succ n ih =>
    intro attempt delay
    obtain ⟨r, b, hrb⟩ := h429 attempt
    unfold cratesRetryGo
    rw [hrb]
    have h2 : delay * 2 * 2 ^ n = delay * 2 ^ (n + 1) := by ring
    simp [ih (attempt + 1) (delay * 2), h2]

/-- C7 counterexample: the GitHub fetcher does not retry a rate-limit
response.  With attempt 0 answering HTTP 403 (reset header 100, current
time 40) and every later attempt succeeding, `fetch_with_retry` under the
default network config (3 retries available) returns the terminal
`RateLimitExceeded` immediately instead of retrying to the available
success; and the GitLab fetcher classifies HTTP 429 as a plain `ApiError`
with no retry at all. -/
theorem rate_limit_no_retry_counterexample :
    fetch_with_retry
        (fun i => if i = 0 then HttpOutcome.response 403 (some 100) (.ok (7 : ℕ))
          else HttpOutcome.response 200 none (.ok 7))
        NetworkConfig.default 40
      = .error (.rateLimit "GitHub" (some 60)) ∧
    fetch_with_retry
        (fun i => if i = 0 then HttpOutcome.response 403 (some 100) (.ok (7 : ℕ))
          else HttpOutcome.response 200 none (.ok 7))
        NetworkConfig.default 40 ≠ .ok 7 ∧
    gitlabFetchOnce (HttpOutcome.response 429 none (.ok (7 : ℕ)))
      = .error (.api "GitLab" "HTTP 429") := by
  refine ⟨rfl, ?_, rfl⟩
  intro h
  simp [fetch_with_retry, githubFetchGo, githubFetchResp,
    NetworkConfig.default] at h

/-- C7 amended: only the crates.io fetcher retries rate-limit responses —
HTTP 429 is retried with exponential backoff and becomes a terminal
`RateLimitExceeded` (carrying the current backoff delay) only once
`max_retries` attempts are exhausted, while any non-429 response is
returned to the caller at once.  The GitHub fetcher treats any HTTP 403 as
an immediately terminal `RateLimitExceeded`, with a retry-after hint
derived from the `x-ratelimit-reset` header when present but with no
retry.  The GitLab fetcher performs no rate-limit handling: a non-success
status is a terminal `ApiError`. -/
theorem rate_limit_behavior_per_fetcher :
    (∀ (α : Type) (env : ℕ → HttpOutcome α) (max_retries base_delay : ℕ),
      (∀ i, ∃ r b, env i = .response 429 r b) →
      retry_request env max_retries base_delay =
        .error (.rateLimit "crates.io" (some (base_delay * 2 ^ max_retries)))) ∧
    (∀ (α : Type) (env : ℕ → HttpOutcome α) (max_retries base_delay status : ℕ)
        (r : Option ℕ) (b : Except String α),
      env 0 = .response status r b → status ≠ 429 →
      retry_request env max_retries base_delay = .ok ⟨status, b⟩) ∧
    (∀ (α : Type) (env : ℕ → HttpOutcome α) (cfg : NetworkConfig) (now : ℕ)
        (reset : Option ℕ) (b : Except String α),
      env 0 = .response 403 reset b →
      fetch_with_retry env cfg now =
        .error (.rateLimit "GitHub" (reset.map (fun t => t - now)))) ∧
    (∀ (α : Type) (reset : Option ℕ) (b : Except String α),
      gitlabFetchOnce (.response 429 reset b) =
        .error (.api "GitLab" "HTTP 429")) := by
  refine ⟨?_, ?_, ?_, ?_⟩
  · intro α env max_retries base_delay h429
    exact cratesRetryGo_all429 env h429 max_retries 0 base_delay
  · intro α env max_retries base_delay status r b henv hne
    cases max_retries with
    | zero =>
      unfold retry_request cratesRetryGo
      rw [henv]
      simp [hne]
    | succ n =>
      unfold retry_request cratesRetryGo
      rw [henv]
      simp [hne]
  · intro α env cfg now reset b henv
    unfold fetch_with_retry
    cases hmr : cfg.max_retries with
    | zero =>
      unfold githubFetchGo
      rw [henv]
      simp [githubFetchResp]
    | succ n =>
      unfold githubFetchGo
      rw [henv]
      simp [githubFetchResp]
  · intro α reset b
    rfl

/-- Witness for C7 amended at concrete attempt sequences. -/
theorem rate_limit_behavior_per_fetcher_witness :
    retry_request (fun _ => HttpOutcome.response 429 none
        (.error "rate limited" : Except String ℕ)) 2 100
      = .error (.rateLimit "crates.io" (some 400)) ∧
    fetch_with_retry (fun _ => HttpOutcome.response 403 (some 100)
        (.ok (7 : ℕ))) NetworkConfig.default 40
      = .error (.rateLimit "GitHub" (some 60)) ∧
    gitlabFetchOnce (HttpOutcome.response 429 none (.ok (5 : ℕ)))
      = .error (.api "GitLab" "HTTP 429") := by
  refine ⟨?_, ?_, ?_⟩
  · have := rate_limit_behavior_per_fetcher.1 ℕ
      (fun _ => HttpOutcome.response 429 none (.error "rate limited")) 2 100
      (fun i => ⟨none, .error "rate limited", rfl⟩)
    simpa using this
  · have := rate_limit_behavior_per_fetcher.2.2.1 ℕ
      (fun _ => HttpOutcome.response 403 (some 100) (.ok 7))
      NetworkConfig.default 40 (some 100) (.ok 7) rfl
    simpa using this
  · exact rate_limit_behavior_per_fetcher.2.2.2 ℕ none (.ok 5)

/-! ### C9: GitHub URL parsing

The parsing proofs locate pattern occurrences through a distinguished
marker character that occurs exactly once in the trimmed URL (`':'` for
the `github.com:` pattern, `'.'` for `github.com/`). -/

theorem not_mem_append {c : Char} {a b : List Char}
    (ha : c ∉ a) (hb : c ∉ b) : c ∉ a ++ b := by
  intro hm
  rcases List.mem_append.mp hm with h | h
  · exact ha h
  · exact hb h

theorem unique_marker_align {pre rest a b q qr : List Char} {c : Char}
    (he : pre ++ c :: rest = a ++ (q ++ c :: qr) ++ b)
    (hpre : c ∉ pre) (hrest : c ∉ rest) (hq : c ∉ q) (hqr : c ∉ qr) :
    pre = a ++ q ∧ rest = qr ++ b := by
  have hca : c ∉ a ∧ c ∉ b := by
    have hcount : List.count c (pre ++ c :: rest) = 1 := by
      simp [List.count_append, List.count_cons,
        List.count_eq_zero.mpr hpre, List.count_eq_zero.mpr hrest]
    rw [he] at hcount
    simp [List.count_append, List.count_cons,
      List.count_eq_zero.mpr hq, List.count_eq_zero.mpr hqr] at hcount
    exact ⟨List.count_eq_zero.mp (by omega), List.count_eq_zero.mp (by omega)⟩
  have he2 : pre ++ c :: rest = (a ++ q) ++ c :: (qr ++ b) := by
    rw [he]
    simp [List.append_assoc]
  exact append_marker_inj he2 hpre (not_mem_append hca.1 hq)

theorem findSub_unique_marker_occ {a0 b0 q qr : List Char} {c : Char}
    (ha0 : c ∉ a0) (hb0 : c ∉ b0) (hq : c ∉ q) (hqr : c ∉ qr) :
    findSubL ((a0 ++ q) ++ c :: (qr ++ b0)) (q ++ c :: qr) = some a0.length := by
  have hocc : (a0 ++ q) ++ c :: (qr ++ b0) = a0 ++ (q ++ c :: qr) ++ b0 := by
    simp [List.append_assoc]
  cases hf : findSubL ((a0 ++ q) ++ c :: (qr ++ b0)) (q ++ c :: qr) with
  | none => exact absurd hocc (findSubL_none _ _ hf a0 b0)
  | some i =>
    obtain ⟨a, b, hab, hal⟩ := findSubL_some _ _ i hf
    obtain ⟨h1, h2⟩ := unique_marker_align hab
      (not_mem_append ha0 hq) (not_mem_append hqr hb0) hq hqr
    have hlen := congrArg List.length h1
    simp [List.length_append] at hlen
    have : i = a0.length := by omega
    rw [this]

theorem findSub_none_marker_short {pre rest q qr : List Char} {c : Char}
    (hpre : c ∉ pre) (hrest : c ∉ rest) (hq : c ∉ q) (hqr : c ∉ qr)
    (hlen : pre.length < q.length) :
    findSubL (pre ++ c :: rest) (q ++ c :: qr) = none := by
  cases hf : findSubL (pre ++ c :: rest) (q ++ c :: qr) with
  | none => rfl
  | some i =>
    obtain ⟨a, b, hab, _⟩ := findSubL_some _ _ i hf
    obtain ⟨h1, h2⟩ := unique_marker_align hab hpre hrest hq hqr
    have := congrArg List.length h1
    simp [List.length_append] at this
    omega

theorem splitSegAfter_unique {a0 b0 q qr : List Char} {c : Char}
    (ha0 : c ∉ a0) (hb0 : c ∉ b0) (hq : c ∉ q) (hqr : c ∉ qr) :
    splitSegAfter ((a0 ++ q) ++ c :: (qr ++ b0)) (q ++ c :: qr) = b0 := by
  unfold splitSegAfter
  rw [findSub_unique_marker_occ ha0 hb0 hq hqr]
  have hdrop : ((a0 ++ q) ++ c :: (qr ++ b0)).drop
      (a0.length + (q ++ c :: qr).length) = b0 := by
    have hre : (a0 ++ q) ++ c :: (qr ++ b0) = (a0 ++ (q ++ c :: qr)) ++ b0 := by
      simp [List.append_assoc]
    have hlen : (a0 ++ (q ++ c :: qr)).length
        = a0.length + (q ++ c :: qr).length := by
      simp [List.length_append]
    rw [hre, ← hlen, List.drop_left]
  simp only [hdrop]
  rw [findSubL_none_of_char (List.mem_append_right q (List.mem_cons_self c qr)) hb0]

theorem trimSufAll_append_once {x suf : List Char} (hs : suf ≠ [])
    (hne : endsWithL x suf = false) : trimSufAll (x ++ suf) suf = x := by
  unfold trimSufAll
  have hcond : endsWithL (x ++ suf) suf = true :=
    (endsWithL_iff _ _).mpr ⟨x, rfl⟩
  have hslen : suf.length ≠ 0 := by
    intro h0
    exact hs (List.length_eq_zero.mp h0)
  cases hlen : (x ++ suf).length with
  | zero =>
    rw [List.length_append] at hlen
    omega
  | succ m =>
    show trimSufGo suf (m + 1) (x ++ suf) = x
    have htake : (x ++ suf).take ((x ++ suf).length - suf.length) = x := by
      have : (x ++ suf).length - suf.length = x.length := by
        rw [List.length_append]
        omega
      rw [this, List.take_left]
    simp only [trimSufGo, hslen, hcond, and_true, ne_eq, not_false_iff, if_true, htake]
    exact trimSufGo_of_not_ends hne m

theorem not_mem_cons_ne {c m : Char} {r : List Char} (hne : c ≠ m)
    (hr : c ∉ r) : c ∉ (m :: r) := by
  intro hm
  rcases List.mem_cons.mp hm with h | h
  · exact hne h
  · exact hr h

/-- Parsing an already-trimmed URL of the HTTPS/git protocol shape: the
host part `github.com/` is preceded by a protocol prefix `preC ++ ':' ::
preD` whose only colon is the protocol colon and which is shorter than
`github.com` before that colon, so `github.com:` does not occur and the
first `github.com/` occurrence is at the protocol boundary. -/
theorem parse_core_slash (url o r preC preD : List Char)
    (hod : '.' ∉ o) (hos : '/' ∉ o) (hoc : ':' ∉ o)
    (hrd : '.' ∉ r) (hrs : '/' ∉ r) (hrc : ':' ∉ r)
    (hc1 : ':' ∉ preC) (hc2 : ':' ∉ preD)
    (hd1 : '.' ∉ preC) (hd2 : '.' ∉ preD)
    (hlen : preC.length < 10)
    (h2 : trimSufAll (trimSufAll url (strL ".git")) (strL "/")
        = (preC ++ ':' :: preD) ++ (strL "github.com/" ++ (o ++ '/' :: r))) :
    parse_github_url url = some (o, r) := by
  have hslashr : ':' ∉ ('/' :: r) := not_mem_cons_ne (by decide) hrc
  have hdotr : '.' ∉ ('/' :: r) := not_mem_cons_ne (by decide) hrd
  have hcolon : findSubL
      ((preC ++ ':' :: preD) ++ (strL "github.com/" ++ (o ++ '/' :: r)))
      (strL "github.com:") = none := by
    rw [show (preC ++ ':' :: preD) ++ (strL "github.com/" ++ (o ++ '/' :: r))
        = preC ++ ':' :: (preD ++ (strL "github.com/" ++ (o ++ '/' :: r))) from by
          simp [List.append_assoc],
      show strL "github.com:" = strL "github.com" ++ ':' :: ([] : List Char) from rfl]
    exact findSub_none_marker_short hc1
      (not_mem_append hc2
        (not_mem_append (by decide) (not_mem_append hoc hslashr)))
      (by decide) (by decide) (by simpa using hlen)
  have hreshape : (preC ++ ':' :: preD) ++ (strL "github.com/" ++ (o ++ '/' :: r))
      = ((preC ++ ':' :: preD) ++ strL "github") ++ '.' ::
          (strL "com/" ++ (o ++ '/' :: r)) := by
    rw [show strL "github.com/" = strL "github" ++ '.' :: strL "com/" from rfl]
    simp [List.append_assoc]
  have hpreA : '.' ∉ preC ++ ':' :: preD :=
    not_mem_append hd1 (not_mem_cons_ne (by decide) hd2)
  have hocc : findSubL
      ((preC ++ ':' :: preD) ++ (strL "github.com/" ++ (o ++ '/' :: r)))
      (strL "github.com/") = some (preC ++ ':' :: preD).length := by
    rw [hreshape,
      show strL "github.com/" = strL "github" ++ '.' :: strL "com/" from rfl]
    exact findSub_unique_marker_occ hpreA (not_mem_append hod hdotr)
      (by decide) (by decide)
  have hseg : splitSegAfter
      ((preC ++ ':' :: preD) ++ (strL "github.com/" ++ (o ++ '/' :: r)))
      (strL "github.com/") = o ++ '/' :: r := by
    rw [hreshape,
      show strL "github.com/" = strL "github" ++ '.' :: strL "com/" from rfl]
    exact splitSegAfter_unique hpreA (not_mem_append hod hdotr)
      (by decide) (by decide)
  simp only [parse_github_url]
  rw [h2]
  simp only [containsSub, hcolon, hocc, Option.isSome_none, Option.isSome_some,
    Bool.false_eq_true, if_false, if_true, hseg, splitOnCharL_append hos,
    splitOnCharL_of_not_mem hrs]

/-- Parsing an already-trimmed URL of the SSH shape
`git@github.com:owner/repo`: the only colon is the separator colon, so the
first `github.com:` occurrence is found at index 4. -/
theorem parse_core_colon (url o r : List Char)
    (hos : '/' ∉ o) (hoc : ':' ∉ o) (hrs : '/' ∉ r) (hrc : ':' ∉ r)
    (h2 : trimSufAll (trimSufAll url (strL ".git")) (strL "/")
        = strL "git@github.com:" ++ (o ++ '/' :: r)) :
    parse_github_url url = some (o, r) := by
  have hslashr : ':' ∉ ('/' :: r) := not_mem_cons_ne (by decide) hrc
  have hreshape : strL "git@github.com:" ++ (o ++ '/' :: r)
      = ((strL "git@" ++ strL "github.com") ++ ':' ::
          (([] : List Char) ++ (o ++ '/' :: r))) := by
    rw [show strL "git@github.com:"
        = (strL "git@" ++ strL "github.com") ++ ':' :: ([] : List Char) from rfl]
    simp [List.append_assoc]
  have hb0 : ':' ∉ o ++ '/' :: r := not_mem_append hoc hslashr
  have hocc : findSubL (strL "git@github.com:" ++ (o ++ '/' :: r))
      (strL "github.com:") = some (strL "git@").length := by
    rw [hreshape,
      show strL "github.com:" = strL "github.com" ++ ':' :: ([] : List Char) from rfl]
    exact findSub_unique_marker_occ (by decide) hb0 (by decide) (by decide)
  have hseg : splitSegAfter (strL "git@github.com:" ++ (o ++ '/' :: r))
      (strL "github.com:") = o ++ '/' :: r := by
    rw [hreshape,
      show strL "github.com:" = strL "github.com" ++ ':' :: ([] : List Char) from rfl]
    have := @splitSegAfter_unique (strL "git@") (o ++ '/' :: r)
      (strL "github.com") ([] : List Char) ':'
      (by decide) hb0 (by decide) (by decide)
    simpa using this
  simp only [parse_github_url]
  rw [h2]
  simp only [containsSub, hocc, Option.isSome_some, if_true, hseg,
    splitOnCharL_append hos, splitOnCharL_of_not_mem hrs]

theorem trim_dotgit_id {a r : List Char} (hrd : '.' ∉ r) :
    trimSufAll (a ++ '/' :: r) (strL ".git") = a ++ '/' :: r := by
  apply trimSufAll_of_not_ends
  rw [show strL ".git" = '.' :: strL "git" from rfl]
  exact endsWithL_false_marker (by decide) hrd

theorem trim_slash_id {a r : List Char} (hr1 : r ≠ []) (hrs : '/' ∉ r) :
    trimSufAll (a ++ '/' :: r) (strL "/") = a ++ '/' :: r := by
  apply trimSufAll_of_not_ends
  rw [show strL "/" = ['/'] from rfl]
  exact endsWithL_false_sep hr1 hrs

theorem trim_dotgit_once {a r : List Char} (hrd : '.' ∉ r) :
    trimSufAll ((a ++ '/' :: r) ++ strL ".git") (strL ".git") = a ++ '/' :: r := by
  apply trimSufAll_append_once (by decide)
  rw [show strL ".git" = '.' :: strL "git" from rfl]
  exact endsWithL_false_marker (by decide) hrd

/-- C9: `parse_github_url` maps the four equivalent spellings
`https://github.com/o/r`, `https://github.com/o/r.git`,
`git://github.com/o/r` and `git@github.com:o/r.git` of the same repository
to the same `(owner, repo)` pair, for every owner `o` and repo `r` (both
nonempty and free of the URL-structural characters `.`, `/`, `:`). -/
theorem parse_github_url_equiv_forms (o r : List Char)
    (ho1 : o ≠ []) (hr1 : r ≠ [])
    (hod : '.' ∉ o) (hos : '/' ∉ o) (hoc : ':' ∉ o)
    (hrd : '.' ∉ r) (hrs : '/' ∉ r) (hrc : ':' ∉ r) :
    parse_github_url (strL "https://github.com/" ++ (o ++ '/' :: r))
      = some (o, r) ∧
    parse_github_url ((strL "https://github.com/" ++ (o ++ '/' :: r)) ++ strL ".git")
      = some (o, r) ∧
    parse_github_url (strL "git://github.com/" ++ (o ++ '/' :: r))
      = some (o, r) ∧
    parse_github_url ((strL "git@github.com:" ++ (o ++ '/' :: r)) ++ strL ".git")
      = some (o, r) := by
  have hre1 : strL "https://github.com/" ++ (o ++ '/' :: r)
      = (strL "https://github.com/" ++ o) ++ '/' :: r := by
    rw [List.append_assoc]
  have hre3 : strL "git://github.com/" ++ (o ++ '/' :: r)
      = (strL "git://github.com/" ++ o) ++ '/' :: r := by
    rw [List.append_assoc]
  have hre4 : strL "git@github.com:" ++ (o ++ '/' :: r)
      = (strL "git@github.com:" ++ o) ++ '/' :: r := by
    rw [List.append_assoc]
  have hshape1 : strL "https://github.com/" ++ (o ++ '/' :: r)
      = (strL "https" ++ ':' :: strL "//") ++ (strL "github.com/" ++ (o ++ '/' :: r)) := by
    rw [show strL "https://github.com/"
        = (strL "https" ++ ':' :: strL "//") ++ strL "github.com/" from rfl]
    rw [List.append_assoc]
  have hshape3 : strL "git://github.com/" ++ (o ++ '/' :: r)
      = (strL "git" ++ ':' :: strL "//") ++ (strL "github.com/" ++ (o ++ '/' :: r)) := by
    rw [show strL "git://github.com/"
        = (strL "git" ++ ':' :: strL "//") ++ strL "github.com/" from rfl]
    rw [List.append_assoc]
  refine ⟨?_, ?_, ?_, ?_⟩
  · apply parse_core_slash _ o r (strL "https") (strL "//") hod hos hoc hrd hrs hrc
      (by decide) (by decide) (by decide) (by decide) (by decide)
    rw [hre1, trim_dotgit_id hrd, trim_slash_id hr1 hrs, ← hre1, hshape1]
  · apply parse_core_slash _ o r (strL "https") (strL "//") hod hos hoc hrd hrs hrc
      (by decide) (by decide) (by decide) (by decide) (by decide)
    rw [hre1, trim_dotgit_once hrd, trim_slash_id hr1 hrs, ← hre1, hshape1]
  · apply parse_core_slash _ o r (strL "git") (strL "//") hod hos hoc hrd hrs hrc
      (by decide) (by decide) (by decide) (by decide) (by decide)
    rw [hre3, trim_dotgit_id hrd, trim_slash_id hr1 hrs, ← hre3, hshape3]
  · apply parse_core_colon _ o r hos hoc hrs hrc
    rw [hre4, trim_dotgit_once hrd, trim_slash_id hr1 hrs, ← hre4]

/-- Witness for C9 at owner "o" and repo "r". -/
theorem parse_github_url_equiv_forms_witness :
    parse_github_url (strL "https://github.com/" ++ (strL "o" ++ '/' :: strL "r"))
      = some (strL "o", strL "r") ∧
    parse_github_url ((strL "git@github.com:" ++ (strL "o" ++ '/' :: strL "r"))
        ++ strL ".git")
      = some (strL "o", strL "r") := by
  have h := parse_github_url_equiv_forms (strL "o") (strL "r")
    (by decide) (by decide) (by decide) (by decide) (by decide)
    (by decide) (by decide) (by decide)
  exact ⟨h.1, h.2.2.2⟩

end SecAudit
